import Mathlib

/-!
Verification of the stock/price synchronisation logic of the seller-apis
repository (files seller.py and market.py), shallowly embedded in Lean.

Modelling conventions:
  - An inventory record (one row of the downloaded spreadsheet) is a
    structure of the three fields the code reads.
  - Python `int(str)` is modelled by pyIntParse, returning none where the
    Python call raises ValueError.  It accepts optional surrounding ASCII
    whitespace, an optional sign, and digit runs with single underscores
    between digits, as CPython does.
  - Functions of the source that can raise are embedded returning Option
    or Except; the mutation of the offer_ids list performed by
    create_stocks is made explicit by returning the final value of the
    list next to the produced payload.
-/

/-- ASCII whitespace characters stripped by Python int(). -/
def isPySpace (c : Char) : Bool :=
  c = ' ' || c = '\t' || c = '\n' || c = '\r' || c = '\x0b' || c = '\x0c'

/-- Strip leading and trailing whitespace from a character list. -/
def pyStrip (cs : List Char) : List Char :=
  ((cs.dropWhile isPySpace).reverse.dropWhile isPySpace).reverse

/-- Numeric value of an ASCII digit character. -/
def pyDigitVal (c : Char) : Nat := c.toNat - 48

/-- Digit-run scanner of Python int(): after an initial digit, digits
continue, optionally separated by single underscores. Returns the
accumulated base-10 value. -/
def pyDigitsGo (acc : Nat) : List Char → Option Nat
  | [] => some acc
  | c :: rest =>
    if c.isDigit then pyDigitsGo (10 * acc + pyDigitVal c) rest
    else if c = '_' then
      match rest with
      | [] => none
      | c2 :: rest2 =>
        if c2.isDigit then pyDigitsGo (10 * acc + pyDigitVal c2) rest2 else none
    else none

/-- Parse a full digit run (nonempty, underscores only between digits). -/
def pyDigitsCore : List Char → Option Nat
  | [] => none
  | c :: rest => if c.isDigit then pyDigitsGo (pyDigitVal c) rest else none

/-- Grammar of the continuation of a digit run (mirrors pyDigitsGo). -/
def pyDigitsGrammarGo : List Char → Bool
  | [] => true
  | c :: rest =>
    if c.isDigit then pyDigitsGrammarGo rest
    else if c = '_' then
      match rest with
      | [] => false
      | c2 :: rest2 => c2.isDigit && pyDigitsGrammarGo rest2
    else false

/-- Grammar of a digit run accepted by Python int() after the sign. -/
def pyDigitsGrammar : List Char → Bool
  | [] => false
  | c :: rest => c.isDigit && pyDigitsGrammarGo rest

/-- Python int(str): strip whitespace, optional sign, digit run. -/
def pyIntParse (s : String) : Option Int :=
  match pyStrip s.toList with
  | [] => none
  | c :: rest =>
    if c = '+' then (pyDigitsCore rest).map (fun n => (n : Int))
    else if c = '-' then (pyDigitsCore rest).map (fun n => -(n : Int))
    else (pyDigitsCore (c :: rest)).map (fun n => (n : Int))

/-- The strings on which Python int() succeeds (syntactic predicate). -/
def pyIntNumeric (s : String) : Bool :=
  match pyStrip s.toList with
  | [] => false
  | c :: rest =>
    if c = '+' then pyDigitsGrammar rest
    else if c = '-' then pyDigitsGrammar rest
    else pyDigitsGrammar (c :: rest)

/-- Base-10 value of a digit string, via the library digit valuation. -/
def specBase10Val (cs : List Char) : Nat :=
  Nat.ofDigits 10 ((cs.map pyDigitVal).reverse)

lemma optionIsSomeMap {α β : Type} (f : α → β) (o : Option α) :
    (o.map f).isSome = o.isSome := by
  cases o <;> rfl

lemma optionIsSomeBind {α β : Type} (f : α → β) (o : Option α) :
    (o.bind fun a => some (f a)).isSome = o.isSome := by
  cases o <;> rfl

lemma pyDigitsGo_isSome_aux (n : Nat) :
    ∀ cs : List Char, cs.length ≤ n →
      ∀ acc, (pyDigitsGo acc cs).isSome = pyDigitsGrammarGo cs := by
  induction n with
  | zero =>
    intro cs hlen acc
    have : cs = [] := List.length_eq_zero.mp (Nat.le_zero.mp hlen)
    subst this
    rfl
  | succ n ih =>
    intro cs hlen acc
    match cs with
    | [] => rfl
    | c :: rest =>
      by_cases hd : c.isDigit
      · have hr : rest.length ≤ n := by simp at hlen; omega
        unfold pyDigitsGo pyDigitsGrammarGo
        simp [hd, ih rest hr]
      · by_cases hu : c = '_'
        · subst hu
          have hud : ('_'.isDigit) = false := by decide
          cases rest with
          | nil => rfl
          | cons c2 rest2 =>
            by_cases h2 : c2.isDigit
            · have hr2 : rest2.length ≤ n := by simp at hlen; omega
              unfold pyDigitsGo pyDigitsGrammarGo
              simp [hud, h2, ih rest2 hr2]
            · unfold pyDigitsGo pyDigitsGrammarGo
              simp [hud, h2]
        · unfold pyDigitsGo pyDigitsGrammarGo
          simp [hd, hu]

lemma pyDigitsGo_isSome (cs : List Char) (acc : Nat) :
    (pyDigitsGo acc cs).isSome = pyDigitsGrammarGo cs :=
  pyDigitsGo_isSome_aux cs.length cs (Nat.le_refl _) acc

lemma pyDigitsCore_isSome (cs : List Char) :
    (pyDigitsCore cs).isSome = pyDigitsGrammar cs := by
  cases cs with
  | nil => rfl
  | cons c rest =>
    by_cases h : c.isDigit
    · simp [pyDigitsCore, pyDigitsGrammar, h, pyDigitsGo_isSome]
    · simp [pyDigitsCore, pyDigitsGrammar, h]

/-- Python int() succeeds exactly on the strings of the int grammar. -/
theorem pyIntParse_isSome (s : String) :
    (pyIntParse s).isSome = pyIntNumeric s := by
  unfold pyIntParse pyIntNumeric
  cases pyStrip s.toList with
  | nil => rfl
  | cons c rest =>
    by_cases hp : c = '+'
    · simp [hp, optionIsSomeMap, optionIsSomeBind, pyDigitsCore_isSome]
    · by_cases hm : c = '-'
      · simp [hp, hm, optionIsSomeMap, optionIsSomeBind, pyDigitsCore_isSome]
      · simp [hp, hm, optionIsSomeMap, optionIsSomeBind, pyDigitsCore_isSome]

lemma pyDigitsGo_all_digits (cs : List Char) :
    ∀ acc, cs.all Char.isDigit = true →
      pyDigitsGo acc cs = some (cs.foldl (fun a c => 10 * a + pyDigitVal c) acc) := by
  induction cs with
  | nil => intro acc h; rfl
  | cons c rest ih =>
    intro acc h
    simp only [List.all_cons, Bool.and_eq_true] at h
    unfold pyDigitsGo
    simp only [h.1, if_true, if_pos]
    rw [ih _ h.2]
    rfl

lemma foldl_digits_ofDigits (cs : List Char) :
    ∀ acc, cs.foldl (fun a c => 10 * a + pyDigitVal c) acc
      = acc * 10 ^ cs.length + specBase10Val cs := by
  induction cs with
  | nil => intro acc; simp [specBase10Val, Nat.ofDigits_nil]
  | cons c rest ih =>
    intro acc
    rw [List.foldl_cons, ih]
    unfold specBase10Val
    rw [List.map_cons, List.reverse_cons, Nat.ofDigits_append]
    simp [Nat.ofDigits_cons, Nat.ofDigits_nil, pow_succ]
    ring

lemma pyDigitsCore_digits (cs : List Char) (h1 : cs ≠ [])
    (h2 : cs.all Char.isDigit = true) :
    pyDigitsCore cs = some (specBase10Val cs) := by
  cases cs with
  | nil => exact absurd rfl h1
  | cons c rest =>
    simp only [List.all_cons, Bool.and_eq_true] at h2
    have hcore : pyDigitsCore (c :: rest)
        = if c.isDigit = true then pyDigitsGo (pyDigitVal c) rest else none := rfl
    rw [hcore, if_pos h2.1, pyDigitsGo_all_digits rest _ h2.2, foldl_digits_ofDigits]
    unfold specBase10Val
    rw [List.map_cons, List.reverse_cons, Nat.ofDigits_append]
    simp [Nat.ofDigits_cons, Nat.ofDigits_nil]
    ring

lemma digit_not_space (c : Char) (h : c.isDigit = true) : isPySpace c = false := by
  unfold isPySpace
  by_contra hc
  simp only [Bool.or_eq_true, decide_eq_true_eq, Bool.not_eq_false] at hc
  have hc2 : c = ' ' ∨ c = '\t' ∨ c = '\n' ∨ c = '\x0d' ∨ c = '\x0b' ∨ c = '\x0c' := by
    tauto
  rcases hc2 with rfl | rfl | rfl | rfl | rfl | rfl <;> exact absurd h (by decide)

lemma dropWhile_space_of_digits (cs : List Char) (h : cs.all Char.isDigit = true) :
    cs.dropWhile isPySpace = cs := by
  cases cs with
  | nil => rfl
  | cons c rest =>
    simp only [List.all_cons, Bool.and_eq_true] at h
    simp [List.dropWhile_cons, digit_not_space c h.1]

lemma pyStrip_digits (cs : List Char) (h : cs.all Char.isDigit = true) :
    pyStrip cs = cs := by
  unfold pyStrip
  rw [dropWhile_space_of_digits cs h,
    dropWhile_space_of_digits cs.reverse (by simpa using h), List.reverse_reverse]

/-- On a nonempty all-digit string, Python int() returns the base-10 value. -/
theorem pyIntParse_digits (s : String) (h1 : s.toList ≠ [])
    (h2 : s.toList.all Char.isDigit = true) :
    pyIntParse s = some ((specBase10Val s.toList : Nat) : Int) := by
  unfold pyIntParse
  rw [pyStrip_digits _ h2]
  cases hcs : s.toList with
  | nil => exact absurd hcs h1
  | cons c rest =>
    rw [hcs] at h2
    simp only [List.all_cons, Bool.and_eq_true] at h2
    have hplus : c ≠ '+' := by
      intro hh; rw [hh] at h2; exact absurd h2.1 (by decide)
    have hminus : c ≠ '-' := by
      intro hh; rw [hh] at h2; exact absurd h2.1 (by decide)
    show (if c = '+' then (pyDigitsCore rest).map (fun n => (n : Int))
        else if c = '-' then (pyDigitsCore rest).map (fun n => -(n : Int))
        else (pyDigitsCore (c :: rest)).map (fun n => (n : Int)))
      = some ((specBase10Val (c :: rest) : Nat) : Int)
    rw [if_neg hplus, if_neg hminus,
      pyDigitsCore_digits (c :: rest) (by simp) (by simp [h2.1, h2.2])]
    rfl

/-!
Data model: one row of the downloaded spreadsheet, restricted to the three
fields the reconciliation code reads (Код, Количество, Цена).  The Python
code wraps the first two in str(); the fields here are the already
stringified values.
-/

structure InventoryRecord where
  code : String
  quantityText : String
  priceText : String
deriving DecidableEq

/-- price_conversion of seller.py: keep the part of the price string before
the first dot (price.split(".")[0]) and remove every character that is not
an ASCII digit (re.sub("[^0-9]", "", ...)). -/
def price_conversion (price : String) : String :=
  String.mk ((price.toList.takeWhile (fun c => c != '.')).filter Char.isDigit)

namespace Seller

/-- The quantity normalization inlined in create_stocks of seller.py:
">10" gives 100, "1" gives 0, anything else goes through int(). -/
def normalizeCount (s : String) : Option Int :=
  if s = ">10" then some 100 else if s = "1" then some 0 else pyIntParse s

/-- One element of the stocks payload of seller.py create_stocks. -/
structure StockUpdate where
  offer_id : String
  stock : Int
deriving DecidableEq

/-- First loop of create_stocks (seller.py): scan the inventory, emit an
entry for every record whose code is in offer_ids, and remove the code
from offer_ids.  Returns the payload so far and the depleted offer_ids.
none models the ValueError of int() on a malformed quantity. -/
def stocksLoop : List InventoryRecord → List String → List StockUpdate →
    Option (List StockUpdate × List String)
  | [], offers, acc => some (acc, offers)
  | w :: ws, offers, acc =>
    if w.code ∈ offers then
      match Seller.normalizeCount w.quantityText with
      | none => none
      | some st => stocksLoop ws (offers.erase w.code) (acc ++ [⟨w.code, st⟩])
    else stocksLoop ws offers acc

/-- create_stocks of seller.py.  The second component is the final value of
the offer_ids list, which the Python function depletes in place; the second
loop of the source appends a zero entry for every remaining offer id. -/
def create_stocks (watch_remnants : List InventoryRecord)
    (offer_ids : List String) : Option (List StockUpdate × List String) :=
  (stocksLoop watch_remnants offer_ids []).map
    (fun p => (p.1 ++ p.2.map (fun o => ⟨o, 0⟩), p.2))

/-- One element of the prices payload of seller.py create_prices. -/
structure PriceUpdate where
  auto_action_enabled : String
  currency_code : String
  offer_id : String
  old_price : String
  price : String
deriving DecidableEq

/-- create_prices of seller.py: one entry per inventory record whose code
is in offer_ids; offer_ids is not modified and nothing is zero-filled. -/
def create_prices : List InventoryRecord → List String → List PriceUpdate
  | [], _ => []
  | w :: ws, offers =>
    if w.code ∈ offers then
      { auto_action_enabled := "UNKNOWN", currency_code := "RUB",
        offer_id := w.code, old_price := "0",
        price := price_conversion w.priceText } :: create_prices ws offers
    else create_prices ws offers

end Seller

namespace Market

/-- The quantity normalization inlined in create_stocks of market.py;
textually the same table as in seller.py. -/
def normalizeCount (s : String) : Option Int :=
  if s = ">10" then some 100 else if s = "1" then some 0 else pyIntParse s

end Market

/-- C2: the quantity normalization used by create_stocks maps ">10" to 100,
"1" to 0 and any other string through Python int() (base-10 value on digit
strings, failure exactly on the strings outside the int grammar), and the
seller.py and market.py variants implement the same table. -/
theorem claim_C2_quantity_normalizer (s : String) :
    Seller.normalizeCount ">10" = some 100 ∧
    Seller.normalizeCount "1" = some 0 ∧
    Seller.normalizeCount "7" = some 7 ∧
    Seller.normalizeCount "abc" = none ∧
    (s ≠ ">10" → s ≠ "1" → Seller.normalizeCount s = pyIntParse s) ∧
    ((pyIntParse s).isSome = pyIntNumeric s) ∧
    (s.toList ≠ [] → s.toList.all Char.isDigit = true →
      pyIntParse s = some ((specBase10Val s.toList : Nat) : Int)) ∧
    Market.normalizeCount s = Seller.normalizeCount s := by
  refine ⟨by decide, by decide, by decide, by decide, ?_, pyIntParse_isSome s,
    pyIntParse_digits s, rfl⟩
  intro h1 h2
  unfold Seller.normalizeCount
  rw [if_neg h1, if_neg h2]

/-- Witness for C2 at the concrete token "7". -/
theorem claim_C2_quantity_normalizer_witness :
    Seller.normalizeCount "7" = pyIntParse "7" ∧ pyIntParse "7" = some 7 := by
  refine ⟨(claim_C2_quantity_normalizer "7").2.2.2.2.1 (by decide) (by decide), ?_⟩
  rw [(claim_C2_quantity_normalizer "7").2.2.2.2.2.2.1 (by decide) (by decide)]
  decide

namespace Seller

lemma stocksLoopAccum : ∀ (ws : List InventoryRecord) (offers : List String)
    (acc st : List StockUpdate) (rest : List String),
    stocksLoop ws offers acc = some (st, rest) →
    ∃ tail, st = acc ++ tail := by
  intro ws
  induction ws with
  | nil =>
    intro offers acc st rest h
    unfold stocksLoop at h
    simp only [Option.some_inj, Prod.mk.injEq] at h
    exact ⟨[], by simp [h.1]⟩
  | cons w ws ih =>
    intro offers acc st rest h
    unfold stocksLoop at h
    by_cases hm : w.code ∈ offers
    · rw [if_pos hm] at h
      cases hn : normalizeCount w.quantityText with
      | none => rw [hn] at h; exact absurd h (by simp)
      | some st0 =>
        rw [hn] at h
        obtain ⟨tail, ht⟩ := ih _ _ _ _ h
        exact ⟨⟨w.code, st0⟩ :: tail, by simp [ht]⟩
    · rw [if_neg hm] at h
      exact ih _ _ _ _ h

lemma stocksLoop_perm : ∀ (ws : List InventoryRecord) (offers : List String)
    (acc st : List StockUpdate) (rest : List String),
    stocksLoop ws offers acc = some (st, rest) →
    (st.map StockUpdate.offer_id ++ rest).Perm
      (acc.map StockUpdate.offer_id ++ offers) := by
  intro ws
  induction ws with
  | nil =>
    intro offers acc st rest h
    unfold stocksLoop at h
    simp only [Option.some_inj, Prod.mk.injEq] at h
    rw [← h.1, ← h.2]
  | cons w ws ih =>
    intro offers acc st rest h
    unfold stocksLoop at h
    by_cases hm : w.code ∈ offers
    · rw [if_pos hm] at h
      cases hn : normalizeCount w.quantityText with
      | none => rw [hn] at h; exact absurd h (by simp)
      | some st0 =>
        rw [hn] at h
        have h1 := ih _ _ _ _ h
        have h3 : ((([(⟨w.code, st0⟩ : StockUpdate)]).map StockUpdate.offer_id)
            ++ offers.erase w.code).Perm offers := by
          simpa using (List.perm_cons_erase hm).symm
        have h2 : ((acc ++ [(⟨w.code, st0⟩ : StockUpdate)]).map StockUpdate.offer_id
            ++ offers.erase w.code).Perm
            (acc.map StockUpdate.offer_id ++ offers) := by
          rw [List.map_append, List.append_assoc]
          exact List.Perm.append_left _ h3
        exact h1.trans h2
    · rw [if_neg hm] at h
      exact ih _ _ _ _ h

end Seller

lemma bneComm {α : Type} [BEq α] [LawfulBEq α] (a b : α) : (a != b) = (b != a) := by
  by_cases h : a = b
  · subst h; rfl
  · have h1 : (a == b) = false := beq_eq_false_iff_ne.mpr h
    have h2 : (b == a) = false := beq_eq_false_iff_ne.mpr (Ne.symm h)
    simp [bne, h1, h2]

namespace Seller

lemma stocksLoop_first_match : ∀ (ws : List InventoryRecord) (offers : List String)
    (acc st : List StockUpdate) (rest : List String) (sku : String)
    (w : InventoryRecord) (q : Int),
    stocksLoop ws offers acc = some (st, rest) → sku ∈ offers →
    ws.find? (fun x => x.code == sku) = some w →
    normalizeCount w.quantityText = some q →
    (⟨sku, q⟩ : StockUpdate) ∈ st := by
  intro ws
  induction ws with
  | nil =>
    intro offers acc st rest sku w q h hsku hf hq
    simp [List.find?] at hf
  | cons w0 ws ih =>
    intro offers acc st rest sku w q h hsku hf hq
    unfold stocksLoop at h
    by_cases hc : (w0.code == sku) = true
    · have hfc : List.find? (fun x => x.code == sku) (w0 :: ws) = some w0 :=
        List.find?_cons_of_pos ws hc
      rw [hfc] at hf
      have hww : w0 = w := by injection hf
      subst hww
      have hcs : w0.code = sku := by simpa using hc
      have hm : w0.code ∈ offers := by rw [hcs]; exact hsku
      rw [if_pos hm, hq] at h
      obtain ⟨tail, ht⟩ := stocksLoopAccum ws _ _ _ _ h
      rw [ht, hcs]
      simp
    · have hfc : List.find? (fun x => x.code == sku) (w0 :: ws)
          = List.find? (fun x => x.code == sku) ws :=
        List.find?_cons_of_neg ws hc
      rw [hfc] at hf
      have hne : w0.code ≠ sku := by simpa using hc
      by_cases hm : w0.code ∈ offers
      · rw [if_pos hm] at h
        cases hn : normalizeCount w0.quantityText with
        | none => rw [hn] at h; exact absurd h (by simp)
        | some s0 =>
          rw [hn] at h
          exact ih _ _ _ _ _ _ _ h
            ((List.mem_erase_of_ne (Ne.symm hne)).mpr hsku) hf hq
      · rw [if_neg hm] at h
        exact ih _ _ _ _ _ _ _ h hsku hf hq

lemma stocksLoop_unmatched : ∀ (ws : List InventoryRecord) (offers : List String)
    (acc : List StockUpdate) (st : List StockUpdate) (rest : List String)
    (sku : String),
    stocksLoop ws offers acc = some (st, rest) → sku ∈ offers →
    (∀ x ∈ ws, x.code ≠ sku) → sku ∈ rest := by
  intro ws
  induction ws with
  | nil =>
    intro offers acc st rest sku h hsku _
    unfold stocksLoop at h
    simp only [Option.some_inj, Prod.mk.injEq] at h
    rw [← h.2]; exact hsku
  | cons w0 ws ih =>
    intro offers acc st rest sku h hsku hall
    unfold stocksLoop at h
    have hne : w0.code ≠ sku := hall w0 (by simp)
    by_cases hm : w0.code ∈ offers
    · rw [if_pos hm] at h
      cases hn : normalizeCount w0.quantityText with
      | none => rw [hn] at h; exact absurd h (by simp)
      | some s0 =>
        rw [hn] at h
        exact ih _ _ _ _ _ h ((List.mem_erase_of_ne (Ne.symm hne)).mpr hsku)
          (fun x hx => hall x (by simp [hx]))
    · rw [if_neg hm] at h
      exact ih _ _ _ _ _ h hsku (fun x hx => hall x (by simp [hx]))

lemma stocksLoop_rest_filter : ∀ (ws : List InventoryRecord) (offers : List String)
    (acc st : List StockUpdate) (rest : List String),
    stocksLoop ws offers acc = some (st, rest) → offers.Nodup →
    rest = offers.filter (fun c => ws.all (fun x => x.code != c)) := by
  intro ws
  induction ws with
  | nil =>
    intro offers acc st rest h _
    unfold stocksLoop at h
    simp only [Option.some_inj, Prod.mk.injEq] at h
    rw [← h.2]
    simp
  | cons w0 ws ih =>
    intro offers acc st rest h hnd
    unfold stocksLoop at h
    by_cases hm : w0.code ∈ offers
    · rw [if_pos hm] at h
      cases hn : normalizeCount w0.quantityText with
      | none => rw [hn] at h; exact absurd h (by simp)
      | some s0 =>
        rw [hn] at h
        have hrest := ih _ _ _ _ h (hnd.erase w0.code)
        rw [hnd.erase_eq_filter w0.code, List.filter_filter] at hrest
        rw [hrest]
        apply List.filter_congr
        intro c _
        rw [List.all_cons, bneComm c w0.code, Bool.and_comm]
    · rw [if_neg hm] at h
      have hrest := ih _ _ _ _ h hnd
      rw [hrest]
      apply List.filter_congr
      intro c hc
      have hne : w0.code ≠ c := fun hh => hm (hh ▸ hc)
      rw [List.all_cons]
      have : (w0.code != c) = true := bne_iff_ne.mpr hne
      rw [this, Bool.true_and]

lemma create_prices_nil_of_unmatched : ∀ (ws : List InventoryRecord)
    (offers : List String),
    (∀ c ∈ offers, ∀ x ∈ ws, x.code ≠ c) → create_prices ws offers = [] := by
  intro ws
  induction ws with
  | nil => intro offers _; rfl
  | cons w0 ws ih =>
    intro offers hall
    unfold create_prices
    by_cases hm : w0.code ∈ offers
    · exact absurd rfl (hall w0.code hm w0 (by simp))
    · rw [if_neg hm]
      exact ih offers (fun c hc x hx => hall c hc x (by simp [hx]))

/-- The price list built by main of seller.py: create_prices receives the
offer_ids list as create_stocks left it. -/
def mainPrices (wr : List InventoryRecord) (offer_ids : List String) :
    Option (List PriceUpdate) :=
  (create_stocks wr offer_ids).map (fun p => create_prices wr p.2)

end Seller

/-- C1 counterexample: on the duplicated catalog list ["A", "A"] and an
inventory with two records of code "A", create_stocks emits two entries for
the single SKU "A", the second derived from the second matching record, so
the produced list does not contain exactly one entry per SKU and the
quantity is not always taken from the first matching inventory record. -/
theorem claim_C1_counterexample :
    Seller.create_stocks [⟨"A", "2", "p"⟩, ⟨"A", "3", "p"⟩] ["A", "A"]
      = some ([⟨"A", 2⟩, ⟨"A", 3⟩], []) := by decide

/-- C1 (amended): for every inventory list and every duplicate-free catalog
list, whenever create_stocks returns, the stock list has exactly one entry
per catalog SKU and no entry outside the catalog; a SKU with a matching
inventory record gets the quantity normalized from the first matching
record, and a SKU with no matching record gets quantity 0. -/
theorem claim_C1_catalog_reconciler (wr : List InventoryRecord)
    (cat : List String) (st : List Seller.StockUpdate) (rest : List String)
    (h : Seller.create_stocks wr cat = some (st, rest)) (hnd : cat.Nodup) :
    (∀ sku ∈ cat, (st.map Seller.StockUpdate.offer_id).count sku = 1) ∧
    (∀ e ∈ st, e.offer_id ∈ cat) ∧
    (∀ sku w q, sku ∈ cat → wr.find? (fun x => x.code == sku) = some w →
      Seller.normalizeCount w.quantityText = some q →
      (⟨sku, q⟩ : Seller.StockUpdate) ∈ st) ∧
    (∀ sku ∈ cat, wr.find? (fun x => x.code == sku) = none →
      (⟨sku, 0⟩ : Seller.StockUpdate) ∈ st) := by
  unfold Seller.create_stocks at h
  cases hl : Seller.stocksLoop wr cat [] with
  | none => rw [hl] at h; exact absurd h (by simp)
  | some p =>
    rw [hl] at h
    simp only [Option.map_some', Option.some_inj, Prod.mk.injEq] at h
    obtain ⟨hst, hrest⟩ := h
    have hperm := Seller.stocksLoop_perm wr cat [] p.1 p.2 hl
    have hmap : st.map Seller.StockUpdate.offer_id
        = p.1.map Seller.StockUpdate.offer_id ++ p.2 := by
      rw [← hst, List.map_append, List.map_map]
      simp [Function.comp_def]
    have hperm2 : (st.map Seller.StockUpdate.offer_id).Perm cat := by
      rw [hmap]
      simpa using hperm
    refine ⟨?_, ?_, ?_, ?_⟩
    · intro sku hsku
      rw [hperm2.count_eq]
      exact List.count_eq_one_of_mem hnd hsku
    · intro e he
      exact hperm2.mem_iff.mp (List.mem_map_of_mem _ he)
    · intro sku w q hsku hf hq
      have := Seller.stocksLoop_first_match wr cat [] p.1 p.2 sku w q hl hsku hf hq
      rw [← hst]
      exact List.mem_append_left _ this
    · intro sku hsku hf
      have hall : ∀ x ∈ wr, x.code ≠ sku := by
        intro x hx
        have := List.find?_eq_none.mp hf x hx
        simpa using this
      have hmem := Seller.stocksLoop_unmatched wr cat [] p.1 p.2 sku hl hsku hall
      rw [← hst]
      exact List.mem_append_right _
        (List.mem_map_of_mem (fun o => (⟨o, 0⟩ : Seller.StockUpdate)) hmem)

/-- Witness for the amended C1 on the end-to-end example of the spec. -/
theorem claim_C1_catalog_reconciler_witness :
    (([(⟨"A", (100 : Int)⟩ : Seller.StockUpdate), ⟨"C", 0⟩].map
      Seller.StockUpdate.offer_id).count "A") = 1 ∧
    ((⟨"C", 0⟩ : Seller.StockUpdate) ∈
      [(⟨"A", (100 : Int)⟩ : Seller.StockUpdate), ⟨"C", 0⟩]) := by
  have h := claim_C1_catalog_reconciler [⟨"A", ">10", "p"⟩] ["A", "C"]
    [⟨"A", 100⟩, ⟨"C", 0⟩] ["C"] (by decide) (by decide)
  exact ⟨h.1 "A" (by decide), h.2.2.2 "C" (by decide) (by decide)⟩

/-- C10: create_stocks leaves in offer_ids exactly the catalog codes
matched by no inventory record (the zero-fill pass removes nothing), and
the create_prices call of seller.py main receives that depleted list; as
create_prices itself only emits entries for codes with an inventory record,
the price list main builds is empty. -/
theorem claim_C10_offer_ids_mutation (wr : List InventoryRecord)
    (cat : List String) (st : List Seller.StockUpdate) (rest : List String)
    (h : Seller.create_stocks wr cat = some (st, rest)) (hnd : cat.Nodup) :
    rest = cat.filter (fun c => wr.all (fun x => x.code != c)) ∧
    Seller.mainPrices wr cat = some (Seller.create_prices wr rest) ∧
    Seller.create_prices wr rest = [] := by
  have h0 := h
  unfold Seller.create_stocks at h
  cases hl : Seller.stocksLoop wr cat [] with
  | none => rw [hl] at h; exact absurd h (by simp)
  | some p =>
    rw [hl] at h
    simp only [Option.map_some', Option.some_inj, Prod.mk.injEq] at h
    obtain ⟨hst, hrest⟩ := h
    have hfil : rest = cat.filter (fun c => wr.all (fun x => x.code != c)) := by
      rw [← hrest]
      exact Seller.stocksLoop_rest_filter wr cat [] p.1 p.2 hl hnd
    refine ⟨hfil, ?_, ?_⟩
    · unfold Seller.mainPrices
      rw [h0]
      rfl
    · apply Seller.create_prices_nil_of_unmatched
      intro c hc x hx
      rw [hfil] at hc
      have hpred := (List.mem_filter.mp hc).2
      have := List.all_eq_true.mp hpred x hx
      exact bne_iff_ne.mp this

/-- Witness for C10: one matched code "A", one unmatched code "B". -/
theorem claim_C10_offer_ids_mutation_witness :
    Seller.create_prices [⟨"A", "5", "p"⟩] ["B"] = [] :=
  (claim_C10_offer_ids_mutation [⟨"A", "5", "p"⟩] ["A", "B"]
    [⟨"A", 5⟩, ⟨"B", 0⟩] ["B"] (by decide) (by decide)).2.2

namespace Market

/-- One element of the items array of a market.py stock entry: count,
the constant fulfillment type string "FIT", and the updatedAt timestamp. -/
structure StockItem where
  count : Int
  itemType : String
  updatedAt : String
deriving DecidableEq

/-- One element of the stocks payload of market.py create_stocks. -/
structure StockUpdate where
  sku : String
  warehouseId : String
  items : List StockItem
deriving DecidableEq

/-- First loop of create_stocks (market.py); identical reconciliation to
seller.py but each entry carries the warehouse id and the date string the
function computed once from the clock (made an explicit argument here). -/
def stocksLoop (warehouse_id date : String) :
    List InventoryRecord → List String → List StockUpdate →
    Option (List StockUpdate × List String)
  | [], offers, acc => some (acc, offers)
  | w :: ws, offers, acc =>
    if w.code ∈ offers then
      match normalizeCount w.quantityText with
      | none => none
      | some st => stocksLoop warehouse_id date ws (offers.erase w.code)
          (acc ++ [⟨w.code, warehouse_id, [⟨st, "FIT", date⟩]⟩])
    else stocksLoop warehouse_id date ws offers acc

/-- create_stocks of market.py.  The second component is the final value of
the offer_ids list; the second loop of the source appends a zero entry with
the same warehouse id and date for every remaining offer id. -/
def create_stocks (wr : List InventoryRecord) (offer_ids : List String)
    (warehouse_id date : String) : Option (List StockUpdate × List String) :=
  (stocksLoop warehouse_id date wr offer_ids []).map
    (fun p =>
      (p.1 ++ p.2.map (fun o => ⟨o, warehouse_id, [⟨0, "FIT", date⟩]⟩), p.2))

/-- The price object of a market.py price entry. -/
structure PriceValue where
  value : Int
  currencyId : String
deriving DecidableEq

/-- One element of the prices payload of market.py create_prices. -/
structure PriceUpdate where
  id : String
  price : PriceValue
deriving DecidableEq

/-- create_prices of market.py: one entry per inventory record whose code
is in offer_ids; the price goes through int(price_conversion(...)), whose
ValueError on a digitless price string is modelled by none. -/
def create_prices : List InventoryRecord → List String → Option (List PriceUpdate)
  | [], _ => some []
  | w :: ws, offers =>
    if w.code ∈ offers then
      match pyIntParse (price_conversion w.priceText) with
      | none => none
      | some v =>
        (create_prices ws offers).map (fun rest => ⟨w.code, ⟨v, "RUR"⟩⟩ :: rest)
    else create_prices ws offers

/-- A market stock entry with its updatedAt timestamps erased. -/
def stripUpdatedAt (m : StockUpdate) : String × String × List (Int × String) :=
  (m.sku, m.warehouseId, m.items.map (fun it => (it.count, it.itemType)))

lemma stocksLoop_strip : ∀ (ws : List InventoryRecord) (offers : List String)
    (wh d1 d2 : String) (acc1 acc2 : List StockUpdate),
    acc1.map stripUpdatedAt = acc2.map stripUpdatedAt →
    (stocksLoop wh d1 ws offers acc1).map
        (fun p => (p.1.map stripUpdatedAt, p.2))
      = (stocksLoop wh d2 ws offers acc2).map
        (fun p => (p.1.map stripUpdatedAt, p.2)) := by
  intro ws
  induction ws with
  | nil =>
    intro offers wh d1 d2 acc1 acc2 hacc
    unfold stocksLoop
    simp [hacc]
  | cons w0 ws ih =>
    intro offers wh d1 d2 acc1 acc2 hacc
    unfold stocksLoop
    by_cases hm : w0.code ∈ offers
    · rw [if_pos hm, if_pos hm]
      cases hn : normalizeCount w0.quantityText with
      | none => rfl
      | some st0 =>
        apply ih
        rw [List.map_append, List.map_append, hacc]
        rfl
    · rw [if_neg hm, if_neg hm]
      exact ih offers wh d1 d2 acc1 acc2 hacc

lemma marketCreatePricesMem : ∀ (ws : List InventoryRecord) (offers : List String)
    (res : List PriceUpdate) (e : PriceUpdate),
    create_prices ws offers = some res → e ∈ res →
    e.id ∈ offers ∧ ∃ x ∈ ws, x.code = e.id := by
  intro ws
  induction ws with
  | nil =>
    intro offers res e h he
    unfold create_prices at h
    simp only [Option.some_inj] at h
    rw [← h] at he
    exact absurd he (by simp)
  | cons w0 ws ih =>
    intro offers res e h he
    unfold create_prices at h
    by_cases hm : w0.code ∈ offers
    · rw [if_pos hm] at h
      cases hv : pyIntParse (price_conversion w0.priceText) with
      | none => rw [hv] at h; exact absurd h (by simp)
      | some v =>
        rw [hv] at h
        cases hrec : create_prices ws offers with
        | none => rw [hrec] at h; exact absurd h (by simp)
        | some rest =>
          rw [hrec] at h
          simp only [Option.map_some', Option.some_inj] at h
          rw [← h] at he
          cases he with
          | head => exact ⟨hm, w0, by simp⟩
          | tail _ hmem =>
            obtain ⟨h1, x, hx, hcx⟩ := ih offers rest e hrec hmem
            exact ⟨h1, x, by simp [hx], hcx⟩
    · rw [if_neg hm] at h
      obtain ⟨h1, x, hx, hcx⟩ := ih offers res e h he
      exact ⟨h1, x, by simp [hx], hcx⟩

end Market

namespace Seller

lemma sellerCreatePricesMem : ∀ (ws : List InventoryRecord) (offers : List String)
    (e : PriceUpdate), e ∈ create_prices ws offers →
    e.offer_id ∈ offers ∧ ∃ x ∈ ws, x.code = e.offer_id := by
  intro ws
  induction ws with
  | nil => intro offers e he; exact absurd he (by simp [create_prices])
  | cons w0 ws ih =>
    intro offers e he
    unfold create_prices at he
    by_cases hm : w0.code ∈ offers
    · rw [if_pos hm] at he
      cases he with
      | head => exact ⟨hm, w0, by simp⟩
      | tail _ hmem =>
        obtain ⟨h1, x, hx, hcx⟩ := ih offers e hmem
        exact ⟨h1, x, by simp [hx], hcx⟩
    · rw [if_neg hm] at he
      obtain ⟨h1, x, hx, hcx⟩ := ih offers e he
      exact ⟨h1, x, by simp [hx], hcx⟩

end Seller

/-- C8: both create_prices variants emit entries only for codes present in
both the inventory and the supplied offer_ids list; no entry is ever
emitted for a catalog SKU absent from the inventory (no zero-fill). -/
theorem claim_C8_prices_only_matched (wr : List InventoryRecord)
    (cat : List String) :
    (∀ e ∈ Seller.create_prices wr cat,
      e.offer_id ∈ cat ∧ ∃ x ∈ wr, x.code = e.offer_id) ∧
    (∀ res e, Market.create_prices wr cat = some res → e ∈ res →
      e.id ∈ cat ∧ ∃ x ∈ wr, x.code = e.id) := by
  constructor
  · intro e he
    exact Seller.sellerCreatePricesMem wr cat e he
  · intro res e h he
    exact Market.marketCreatePricesMem wr cat res e h he

/-- Witness for C8 on a one-record inventory matching the only catalog SKU. -/
theorem claim_C8_prices_only_matched_witness :
    ("A" ∈ ["A"] ∧ ∃ x ∈ [(⟨"A", "5", "7"⟩ : InventoryRecord)], x.code = "A") ∧
    ("A" ∈ ["A"] ∧ ∃ x ∈ [(⟨"A", "5", "7"⟩ : InventoryRecord)], x.code = "A") := by
  have h := claim_C8_prices_only_matched [⟨"A", "5", "7"⟩] ["A"]
  constructor
  · exact h.1 ⟨"UNKNOWN", "RUB", "A", "0", "7"⟩ (by decide)
  · exact h.2 [⟨"A", ⟨7, "RUR"⟩⟩] ⟨"A", ⟨7, "RUR"⟩⟩ (by decide) (by decide)

/-- C9 counterexample: market.py create_stocks stamps every entry with the
clock value read at the start of the call, so two runs of the reconciler
over the same inventory and identical fresh catalog lists, but at different
clock reads, produce different payloads. -/
theorem claim_C9_counterexample :
    Market.create_stocks [] ["A"] "wh" "2024-01-01T00:00:00Z"
      ≠ Market.create_stocks [] ["A"] "wh" "2024-01-01T00:00:01Z" := by
  decide

/-- C9 (amended): with the same inventory and element-wise identical fresh
catalog lists, seller.py create_stocks and market.py create_stocks are
deterministic given the clock read; the market payloads of two runs are
byte-identical exactly up to the updatedAt timestamps (they coincide after
erasing updatedAt, and are equal outright when the clock reads agree). -/
theorem claim_C9_idempotence (wr : List InventoryRecord)
    (cat1 cat2 : List String) (wh d1 d2 : String) (hc : cat1 = cat2) :
    Seller.create_stocks wr cat1 = Seller.create_stocks wr cat2 ∧
    Market.create_stocks wr cat1 wh d1 = Market.create_stocks wr cat2 wh d1 ∧
    (Market.create_stocks wr cat1 wh d1).map
        (fun p => (p.1.map Market.stripUpdatedAt, p.2))
      = (Market.create_stocks wr cat2 wh d2).map
        (fun p => (p.1.map Market.stripUpdatedAt, p.2)) := by
  subst hc
  refine ⟨rfl, rfl, ?_⟩
  have hloop := Market.stocksLoop_strip wr cat1 wh d1 d2 [] [] rfl
  unfold Market.create_stocks
  cases h1 : Market.stocksLoop wh d1 wr cat1 [] with
  | none =>
    cases h2 : Market.stocksLoop wh d2 wr cat1 [] with
    | none => rfl
    | some p2 => rw [h1, h2] at hloop; exact absurd hloop (by simp)
  | some p1 =>
    cases h2 : Market.stocksLoop wh d2 wr cat1 [] with
    | none => rw [h1, h2] at hloop; exact absurd hloop (by simp)
    | some p2 =>
      rw [h1, h2] at hloop
      simp only [Option.map_some', Option.some_inj, Prod.mk.injEq] at hloop
      obtain ⟨hs, hr⟩ := hloop
      simp only [Option.map_some', Option.some_inj, Prod.mk.injEq]
      constructor
      · rw [List.map_append, List.map_append, hs, hr,
          List.map_map, List.map_map]
        rfl
      · exact hr

/-- Witness for the amended C9: one catalog SKU, two distinct clock reads. -/
theorem claim_C9_idempotence_witness :
    (Market.create_stocks [] ["A"] "wh" "d1").map
        (fun p => (p.1.map Market.stripUpdatedAt, p.2))
      = (Market.create_stocks [] ["A"] "wh" "d2").map
        (fun p => (p.1.map Market.stripUpdatedAt, p.2)) :=
  (claim_C9_idempotence [] ["A"] ["A"] "wh" "d1" "d2" rfl).2.2

/-!
Batcher: divide of seller.py is a generator over range(0, len(lst), n)
yielding the slices lst[i : i + n].  Consuming list(divide(lst, n)) is
modelled by divide below; range raises ValueError when its step is zero,
and for a negative step range(0, len, step) is empty.
-/

/-- Element count of Python range(start, stop, step) for a nonzero step. -/
def pyRangeLen (start stop step : Int) : Nat :=
  if 0 < step then ((stop - start).toNat + (step.toNat - 1)) / step.toNat
  else ((start - stop).toNat + ((-step).toNat - 1)) / (-step).toNat

/-- Python range(start, stop, step) as a list, for a nonzero step. -/
def pyRange (start stop step : Int) : List Int :=
  (List.range (pyRangeLen start stop step)).map
    (fun k : Nat => start + (k : Int) * step)

/-- Python slice lst[i : j] for 0 ≤ i ≤ j, the only case divide uses. -/
def pySlice {α : Type} (lst : List α) (i j : Int) : List α :=
  (lst.drop i.toNat).take (j - i).toNat

/-- The chunks produced by the generator body of divide. -/
def divideChunks {α : Type} (lst : List α) (n : Int) : List (List α) :=
  (pyRange 0 lst.length n).map (fun i => pySlice lst i (i + n))

/-- Consuming list(divide(lst, n)): range(0, len, 0) raises ValueError. -/
def divide {α : Type} (lst : List α) (n : Int) : Except String (List (List α)) :=
  if n = 0 then Except.error "ValueError: range() arg 3 must not be zero"
  else Except.ok (divideChunks lst n)

lemma divideChunks_nil {α : Type} (n : Int) : divideChunks ([] : List α) n = [] := by
  unfold divideChunks pyRange
  have hc : pyRangeLen 0 ((([] : List α).length : Nat) : Int) n = 0 := by
    unfold pyRangeLen
    simp only [List.length_nil, Nat.cast_zero]
    split
    · rename_i h
      exact Nat.div_eq_of_lt (by omega)
    · rcases Nat.eq_zero_or_pos ((-n).toNat) with hk | hk
      · rw [hk]
        rfl
      · exact Nat.div_eq_of_lt (by omega)
  rw [hc]
  rfl

lemma divideChunks_neg {α : Type} (lst : List α) (n : Int) (hn : n < 0) :
    divideChunks lst n = [] := by
  unfold divideChunks pyRange
  have hc : pyRangeLen 0 ((lst.length : Nat) : Int) n = 0 := by
    unfold pyRangeLen
    rw [if_neg (by omega)]
    exact Nat.div_eq_of_lt (by omega)
  rw [hc]
  rfl

lemma chunkCount_succ (len m : Nat) (h1 : 1 ≤ len) (hm : 0 < m) :
    (len + (m - 1)) / m = ((len - m) + (m - 1)) / m + 1 := by
  rcases Nat.lt_or_ge len (m + 1) with hlt | hge
  · have hub : len - m = 0 := by omega
    rw [hub, Nat.zero_add]
    have h2 : (m - 1) / m = 0 := Nat.div_eq_of_lt (by omega)
    rw [h2]
    have h3 : len + (m - 1) = (len - 1) + m := by omega
    rw [h3, Nat.add_div_right _ hm]
    have h4 : (len - 1) / m = 0 := Nat.div_eq_of_lt (by omega)
    rw [h4]
  · have e1 : len + (m - 1) = ((len - 1 - m) + m) + m := by omega
    have e2 : (len - m) + (m - 1) = (len - 1 - m) + m := by omega
    rw [e1, e2, Nat.add_div_right _ hm, Nat.add_div_right _ hm]

lemma pySlice_shift {α : Type} (lst : List α) (k m : Nat) :
    pySlice lst (((k + 1) * m : Nat) : Int) ((((k + 1) * m : Nat) : Int) + (m : Int))
      = pySlice (lst.drop m) ((k * m : Nat) : Int) (((k * m : Nat) : Int) + (m : Int)) := by
  unfold pySlice
  have h1 : ((((k + 1) * m : Nat) : Int) + (m : Int)) - (((k + 1) * m : Nat) : Int)
      = (m : Int) := by ring
  have h2 : (((k * m : Nat) : Int) + (m : Int)) - ((k * m : Nat) : Int)
      = (m : Int) := by ring
  rw [h1, h2, Int.toNat_natCast, Int.toNat_natCast, Int.toNat_natCast,
    List.drop_drop]
  congr 2
  ring

lemma divideChunks_cons {α : Type} (lst : List α) (n : Int) (hn : 0 < n)
    (hne : lst ≠ []) :
    divideChunks lst n
      = lst.take n.toNat :: divideChunks (lst.drop n.toNat) n := by
  have hm : 0 < n.toNat := by omega
  have hlen1 : 1 ≤ lst.length := List.length_pos.mpr hne
  have hcount : pyRangeLen 0 (lst.length : Int) n
      = pyRangeLen 0 ((lst.drop n.toNat).length : Int) n + 1 := by
    unfold pyRangeLen
    rw [if_pos hn, if_pos hn]
    have h0 : ((lst.length : Int) - 0).toNat = lst.length := by omega
    have h0b : (((lst.drop n.toNat).length : Int) - 0).toNat
        = (lst.drop n.toNat).length := by omega
    rw [h0, h0b, List.length_drop]
    exact chunkCount_succ lst.length n.toNat hlen1 hm
  have hnm : n = (n.toNat : Int) := by omega
  have hfun : ∀ k : Nat,
      pySlice lst (0 + ((k + 1 : Nat) : Int) * n)
        ((0 + ((k + 1 : Nat) : Int) * n) + n)
      = pySlice (lst.drop n.toNat) (0 + ((k : Nat) : Int) * n)
        ((0 + ((k : Nat) : Int) * n) + n) := by
    intro k
    rw [hnm]
    have e1 : (0 : Int) + ((k + 1 : Nat) : Int) * (n.toNat : Int)
        = (((k + 1) * n.toNat : Nat) : Int) := by push_cast; ring
    have e2 : (0 : Int) + ((k : Nat) : Int) * (n.toNat : Int)
        = ((k * n.toNat : Nat) : Int) := by push_cast; ring
    rw [e1, e2]
    exact pySlice_shift lst k n.toNat
  unfold divideChunks pyRange
  rw [hcount, List.range_succ_eq_map, List.map_cons, List.map_cons]
  refine congrArg₂ List.cons ?_ ?_
  · simp [pySlice]
  · simp only [List.map_map]
    congr 1
    funext k
    simp only [Function.comp_apply]
    exact hfun k

lemma divideChunks_props {α : Type} (n : Int) (hn : 0 < n) :
    ∀ (len : Nat) (lst : List α), lst.length ≤ len →
      (divideChunks lst n).flatten = lst ∧
      (divideChunks lst n).length = (lst.length + (n.toNat - 1)) / n.toNat ∧
      (∀ c ∈ (divideChunks lst n).dropLast, c.length = n.toNat) ∧
      (∀ c, (divideChunks lst n).getLast? = some c →
        1 ≤ c.length ∧ c.length ≤ n.toNat) := by
  have hm : 0 < n.toNat := by omega
  intro len
  induction len with
  | zero =>
    intro lst hlen
    have : lst = [] := List.length_eq_zero.mp (Nat.le_zero.mp hlen)
    subst this
    rw [divideChunks_nil]
    refine ⟨rfl, ?_, by simp, by simp⟩
    simp only [List.length_nil, List.length_nil, Nat.zero_add]
    exact (Nat.div_eq_of_lt (by omega)).symm
  | succ len ih =>
    intro lst hlen
    by_cases hne : lst = []
    · subst hne
      rw [divideChunks_nil]
      refine ⟨rfl, ?_, by simp, by simp⟩
      simp only [List.length_nil, Nat.zero_add]
      exact (Nat.div_eq_of_lt (by omega)).symm
    · have hlen1 : 1 ≤ lst.length := List.length_pos.mpr hne
      rw [divideChunks_cons lst n hn hne]
      have hdroplen : (lst.drop n.toNat).length ≤ len := by
        rw [List.length_drop]; omega
      obtain ⟨ihj, ihl, ihd, ihlast⟩ := ih (lst.drop n.toNat) hdroplen
      refine ⟨?_, ?_, ?_, ?_⟩
      · rw [List.flatten_cons, ihj, List.take_append_drop]
      · simp only [List.length_cons, ihl, List.length_drop]
        exact (chunkCount_succ lst.length n.toNat hlen1 hm).symm
      · intro c hc
        by_cases hrec : divideChunks (lst.drop n.toNat) n = []
        · rw [hrec] at hc
          exact absurd hc (by simp)
        · rw [List.dropLast_cons_of_ne_nil hrec] at hc
          rcases List.mem_cons.mp hc with hh | ht
          · have hdne : lst.drop n.toNat ≠ [] := by
              intro hh2
              rw [hh2, divideChunks_nil] at hrec
              exact hrec rfl
            have hlt : n.toNat < lst.length := by
              have := List.length_pos.mpr hdne
              rw [List.length_drop] at this
              omega
            rw [hh, List.length_take]
            omega
          · exact ihd c ht
      · intro c hc
        by_cases hrec : divideChunks (lst.drop n.toNat) n = []
        · rw [hrec] at hc
          simp only [List.getLast?_singleton, Option.some_inj] at hc
          rw [← hc, List.length_take]
          omega
        · cases hsh : divideChunks (lst.drop n.toNat) n with
          | nil => exact absurd hsh hrec
          | cons b L =>
            rw [hsh, List.getLast?_cons_cons] at hc
            exact ihlast c (by rw [hsh]; exact hc)

/-- C6: for every list and positive chunk size n, consuming divide yields
chunks that concatenate back to the list, all of length n except possibly
the last (length 1..n), with ceil(len/n) chunks, and no chunks at all for
the empty list. -/
theorem claim_C6_batcher {α : Type} (lst : List α) (n : Int) (hn : 0 < n) :
    ∃ cs, divide lst n = Except.ok cs ∧
      cs.flatten = lst ∧
      cs.length = (lst.length + (n.toNat - 1)) / n.toNat ∧
      (∀ c ∈ cs.dropLast, c.length = n.toNat) ∧
      (∀ c, cs.getLast? = some c → 1 ≤ c.length ∧ c.length ≤ n.toNat) ∧
      (lst = [] → cs = []) := by
  refine ⟨divideChunks lst n, ?_, ?_, ?_, ?_, ?_, ?_⟩
  · unfold divide
    rw [if_neg (by omega)]
  · exact (divideChunks_props n hn lst.length lst (Nat.le_refl _)).1
  · exact (divideChunks_props n hn lst.length lst (Nat.le_refl _)).2.1
  · exact (divideChunks_props n hn lst.length lst (Nat.le_refl _)).2.2.1
  · exact (divideChunks_props n hn lst.length lst (Nat.le_refl _)).2.2.2
  · intro h
    subst h
    exact divideChunks_nil n

/-- Witness for C6 on the example of the spec: divide([1..6], 3). -/
theorem claim_C6_batcher_witness :
    ∃ cs, divide ([1, 2, 3, 4, 5, 6] : List Int) 3 = Except.ok cs ∧
      cs.flatten = [1, 2, 3, 4, 5, 6] ∧ cs.length = 2 := by
  obtain ⟨cs, h1, h2, h3, _⟩ :=
    claim_C6_batcher ([1, 2, 3, 4, 5, 6] : List Int) 3 (by decide)
  exact ⟨cs, h1, h2, by rw [h3]; rfl⟩

/-- C7 counterexample: for the negative chunk size -1, consuming
divide([1,2,3], -1) does not fail: range(0, 3, -1) is empty, so the
generator silently yields zero chunks. -/
theorem claim_C7_counterexample :
    divide ([1, 2, 3] : List Int) (-1) = Except.ok [] := by
  unfold divide
  rw [if_neg (by decide)]
  rw [divideChunks_neg _ _ (by decide)]

/-- C7 (amended): consuming divide(lst, 0) fails with ValueError (the
invalid-argument error of range), but for every negative n consuming
divide(lst, n) silently yields the empty chunk sequence instead of
failing. -/
theorem claim_C7_divide_nonpositive {α : Type} (lst : List α) (n : Int)
    (hn : n < 0) :
    divide lst 0 = Except.error "ValueError: range() arg 3 must not be zero" ∧
    divide lst n = Except.ok ([] : List (List α)) := by
  constructor
  · rfl
  · unfold divide
    rw [if_neg (by omega), divideChunks_neg lst n hn]

/-- Witness for the amended C7. -/
theorem claim_C7_divide_nonpositive_witness :
    divide ([1, 2, 3] : List Int) 0
        = Except.error "ValueError: range() arg 3 must not be zero" ∧
      divide ([1, 2, 3] : List Int) (-2) = Except.ok [] :=
  claim_C7_divide_nonpositive ([1, 2, 3] : List Int) (-2) (by decide)

lemma divideChunks_chunk_le {α : Type} (lst : List α) (n : Int) (b : List α)
    (hb : b ∈ divideChunks lst n) : b.length ≤ n.toNat := by
  unfold divideChunks pyRange at hb
  rw [List.map_map] at hb
  obtain ⟨k, _, hbk⟩ := List.mem_map.mp hb
  have he : ((0 : Int) + (k : Int) * n + n) - ((0 : Int) + (k : Int) * n)
      = n := by ring
  rw [← hbk]
  simp only [Function.comp_apply]
  unfold pySlice
  rw [he]
  exact le_trans (List.length_take_le _ _) (Nat.le_refl _)

/-- The batches pushed by upload_stocks of seller.py:
list(divide(create_stocks(...), 100)), one update_stocks call each.
The same expression appears in seller.py main. -/
def sellerUploadStockBatches (wr : List InventoryRecord) (cat : List String) :
    Option (List (List Seller.StockUpdate)) :=
  (Seller.create_stocks wr cat).map (fun p => divideChunks p.1 100)

/-- The batches pushed by upload_stocks of market.py:
list(divide(create_stocks(...), 2000)), one update_stocks call each.
The same expression appears twice in market.py main (FBS and DBS). -/
def marketUploadStockBatches (wr : List InventoryRecord) (cat : List String)
    (wh date : String) : Option (List (List Market.StockUpdate)) :=
  (Market.create_stocks wr cat wh date).map (fun p => divideChunks p.1 2000)

/-- C4: every stock-update call of the upload and main paths carries at
most 100 entries for seller.py (marketplace A) and at most 2000 entries
for market.py (marketplace B). -/
theorem claim_C4_batch_limits (wr : List InventoryRecord) (cat : List String)
    (wh date : String) (bsS : List (List Seller.StockUpdate))
    (bsM : List (List Market.StockUpdate))
    (hS : sellerUploadStockBatches wr cat = some bsS)
    (hM : marketUploadStockBatches wr cat wh date = some bsM) :
    (∀ b ∈ bsS, b.length ≤ 100) ∧ (∀ b ∈ bsM, b.length ≤ 2000) := by
  constructor
  · intro b hb
    unfold sellerUploadStockBatches at hS
    cases hcs : Seller.create_stocks wr cat with
    | none => rw [hcs] at hS; exact absurd hS (by simp)
    | some p =>
      rw [hcs] at hS
      simp only [Option.map_some', Option.some_inj] at hS
      rw [← hS] at hb
      have h := divideChunks_chunk_le p.1 100 b hb
      simpa using h
  · intro b hb
    unfold marketUploadStockBatches at hM
    cases hcs : Market.create_stocks wr cat wh date with
    | none => rw [hcs] at hM; exact absurd hM (by simp)
    | some p =>
      rw [hcs] at hM
      simp only [Option.map_some', Option.some_inj] at hM
      rw [← hM] at hb
      have h := divideChunks_chunk_le p.1 2000 b hb
      simpa using h

/-- Witness for C4 on a one-record inventory and one-SKU catalog: the
single seller batch produced there has at most 100 entries. -/
theorem claim_C4_batch_limits_witness :
    ([(⟨"A", (5 : Int)⟩ : Seller.StockUpdate)]).length ≤ 100 :=
  (claim_C4_batch_limits [⟨"A", "5", "p"⟩] ["A"] "wh" "d"
    [[⟨"A", 5⟩]] [[⟨"A", "wh", [⟨5, "FIT", "d"⟩]⟩]]
    (by decide) (by decide)).1 [⟨"A", 5⟩] (by decide)

/-!
Pagination (get_offer_ids of both files).  The server is abstracted as a
function from the call index to the page returned by that call; the loops
are given fuel (none models non-termination, which the claim excludes by
hypothesis).
-/

/-- One item of a seller.py product page. -/
structure SellerItem where
  offer_id : String
deriving DecidableEq

/-- One page returned by get_product_list of seller.py. -/
structure SellerPage where
  items : List SellerItem
  total : Int
  last_id : String
deriving DecidableEq

namespace Seller

/-- The while-loop of get_offer_ids (seller.py): extend the accumulator by
the page items and stop when the reported total equals the number of items
accumulated so far. -/
def fetchLoop (pages : Nat → SellerPage) : Nat → Nat → List SellerItem →
    Option (List SellerItem)
  | 0, _, _ => none
  | fuel + 1, k, acc =>
    if (pages k).total = ((acc ++ (pages k).items).length : Int) then
      some (acc ++ (pages k).items)
    else fetchLoop pages fuel (k + 1) (acc ++ (pages k).items)

/-- get_offer_ids of seller.py: run the loop from the first call and
project offer_id from every accumulated product. -/
def get_offer_ids (pages : Nat → SellerPage) (fuel : Nat) :
    Option (List String) :=
  (fetchLoop pages fuel 0 []).map (fun l => l.map (fun it => it.offer_id))

/-- Items accumulated by the first k calls, in page order. -/
def cumBefore (pages : Nat → SellerPage) : Nat → List SellerItem
  | 0 => []
  | k + 1 => cumBefore pages k ++ (pages k).items

/-- The completion signal of marketplace A after the call of index k:
the reported total equals the item count seen so far. -/
def stopsAt (pages : Nat → SellerPage) (k : Nat) : Prop :=
  (pages k).total = ((cumBefore pages (k + 1)).length : Int)

lemma sellerFetchLoopRun (pages : Nat → SellerPage) (n : Nat) :
    ∀ fuel k, k ≤ n → (∀ m, k ≤ m → m < n → ¬ stopsAt pages m) →
      stopsAt pages n → n - k < fuel →
      fetchLoop pages fuel k (cumBefore pages k)
        = some (cumBefore pages (n + 1)) := by
  intro fuel
  induction fuel with
  | zero => intro k _ _ _ hf; omega
  | succ fuel ih =>
    intro k hk hnost hstop hf
    unfold fetchLoop
    have hacc : cumBefore pages k ++ (pages k).items = cumBefore pages (k + 1) :=
      rfl
    rcases Nat.eq_or_lt_of_le hk with heq | hlt
    · subst heq
      have hstop2 : (pages k).total = ((cumBefore pages (k + 1)).length : Int) :=
        hstop
      rw [hacc, if_pos hstop2]
    · have hns : ¬ ((pages k).total = ((cumBefore pages (k + 1)).length : Int)) :=
        hnost k (Nat.le_refl k) hlt
      rw [hacc, if_neg hns]
      exact ih (k + 1) hlt
        (fun m hm1 hm2 => hnost m (Nat.le_of_succ_le hm1) hm2) hstop (by omega)

end Seller

/-- One offer of a market.py offer-mapping entry. -/
structure MarketOffer where
  shopSku : String
deriving DecidableEq

/-- One entry of a market.py product page. -/
structure MarketEntry where
  offer : MarketOffer
deriving DecidableEq

/-- The paging object of a market.py page; nextPageToken may be absent. -/
structure MarketPaging where
  nextPageToken : Option String
deriving DecidableEq

/-- One page returned by get_product_list of market.py. -/
structure MarketPage where
  offerMappingEntries : List MarketEntry
  paging : MarketPaging
deriving DecidableEq

/-- Python falsiness of the next-page token: None or the empty string. -/
def tokenFalsy : Option String → Bool
  | none => true
  | some s => s.isEmpty

namespace Market

/-- The while-loop of get_offer_ids (market.py): extend the accumulator by
the page entries and stop when the next-page token is empty or absent. -/
def fetchLoop (pages : Nat → MarketPage) : Nat → Nat → List MarketEntry →
    Option (List MarketEntry)
  | 0, _, _ => none
  | fuel + 1, k, acc =>
    if tokenFalsy (pages k).paging.nextPageToken then
      some (acc ++ (pages k).offerMappingEntries)
    else fetchLoop pages fuel (k + 1) (acc ++ (pages k).offerMappingEntries)

/-- get_offer_ids of market.py: run the loop from the first call and
project offer.shopSku from every accumulated entry. -/
def get_offer_ids (pages : Nat → MarketPage) (fuel : Nat) :
    Option (List String) :=
  (fetchLoop pages fuel 0 []).map (fun l => l.map (fun e => e.offer.shopSku))

/-- Entries accumulated by the first k calls, in page order. -/
def cumBefore (pages : Nat → MarketPage) : Nat → List MarketEntry
  | 0 => []
  | k + 1 => cumBefore pages k ++ (pages k).offerMappingEntries

/-- The completion signal of marketplace B after the call of index k:
the next-page token of that page is empty or absent. -/
def stopsAt (pages : Nat → MarketPage) (k : Nat) : Prop :=
  tokenFalsy (pages k).paging.nextPageToken = true

lemma marketFetchLoopRun (pages : Nat → MarketPage) (n : Nat) :
    ∀ fuel k, k ≤ n → (∀ m, k ≤ m → m < n → ¬ stopsAt pages m) →
      stopsAt pages n → n - k < fuel →
      fetchLoop pages fuel k (cumBefore pages k)
        = some (cumBefore pages (n + 1)) := by
  intro fuel
  induction fuel with
  | zero => intro k _ _ _ hf; omega
  | succ fuel ih =>
    intro k hk hnost hstop hf
    unfold fetchLoop
    have hacc : cumBefore pages k ++ (pages k).offerMappingEntries
        = cumBefore pages (k + 1) := rfl
    rcases Nat.eq_or_lt_of_le hk with heq | hlt
    · subst heq
      have hstop2 : tokenFalsy (pages k).paging.nextPageToken = true := hstop
      rw [hacc, if_pos hstop2]
    · have hns : ¬ (tokenFalsy (pages k).paging.nextPageToken = true) :=
        hnost k (Nat.le_refl k) hlt
      rw [hacc, if_neg hns]
      exact ih (k + 1) hlt
        (fun m hm1 hm2 => hnost m (Nat.le_of_succ_le hm1) hm2) hstop (by omega)

end Market

/-- C3: each get_offer_ids loop terminates exactly at the first call whose
marketplace-specific completion signal fires (total equals the running item
count for seller.py, empty or absent next-page token for market.py) and
returns the offer identifiers of all pages up to that call, concatenated in
page order. -/
theorem claim_C3_pagination (pagesA : Nat → SellerPage)
    (pagesB : Nat → MarketPage) (nA nB fuelA fuelB : Nat)
    (hA1 : ∀ m, m < nA → ¬ Seller.stopsAt pagesA m)
    (hA2 : Seller.stopsAt pagesA nA) (hA3 : nA < fuelA)
    (hB1 : ∀ m, m < nB → ¬ Market.stopsAt pagesB m)
    (hB2 : Market.stopsAt pagesB nB) (hB3 : nB < fuelB) :
    Seller.get_offer_ids pagesA fuelA
      = some ((Seller.cumBefore pagesA (nA + 1)).map (fun it => it.offer_id)) ∧
    Market.get_offer_ids pagesB fuelB
      = some ((Market.cumBefore pagesB (nB + 1)).map
          (fun e => e.offer.shopSku)) := by
  constructor
  · unfold Seller.get_offer_ids
    have hrun := Seller.sellerFetchLoopRun pagesA nA fuelA 0 (Nat.zero_le _)
      (fun m _ hm2 => hA1 m hm2) hA2 (by omega)
    rw [show Seller.cumBefore pagesA 0 = [] from rfl] at hrun
    rw [hrun]
    rfl
  · unfold Market.get_offer_ids
    have hrun := Market.marketFetchLoopRun pagesB nB fuelB 0 (Nat.zero_le _)
      (fun m _ hm2 => hB1 m hm2) hB2 (by omega)
    rw [show Market.cumBefore pagesB 0 = [] from rfl] at hrun
    rw [hrun]
    rfl

/-- Witness for C3: a single page that signals completion immediately on
both marketplaces. -/
theorem claim_C3_pagination_witness :
    Seller.get_offer_ids (fun _ => ⟨[⟨"x"⟩], 1, ""⟩) 1 = some ["x"] ∧
    Market.get_offer_ids (fun _ => ⟨[⟨⟨"y"⟩⟩], ⟨none⟩⟩) 1 = some ["y"] := by
  have h := claim_C3_pagination (fun _ => ⟨[⟨"x"⟩], 1, ""⟩)
    (fun _ => ⟨[⟨⟨"y"⟩⟩], ⟨none⟩⟩) 0 0 1 1
    (fun m hm => absurd hm (Nat.not_lt_zero m))
    (by unfold Seller.stopsAt; decide) (by decide)
    (fun m hm => absurd hm (Nat.not_lt_zero m))
    (by unfold Market.stopsAt; decide) (by decide)
  exact h

/-!
Top-level main of both files.  The work done inside the try block is
abstracted as a computation that either finishes or raises one of the
exceptions distinguished by the except clauses; what main does with it is
embedded exactly: which calls run before the try, which handler prints
which line, and whether the exception escapes main.
-/

/-- The exception taxonomy distinguished by the except clauses of main:
requests.exceptions.ReadTimeout, requests.exceptions.ConnectionError, and
the catch-all Exception. -/
inductive PyExc
  | readTimeout
  | connectionError (msg : String)
  | other (msg : String)
deriving DecidableEq

/-- Observable outcome of a main run: normal return with the diagnostic
lines printed (process exit code 0), or an exception escaping main. -/
inductive MainOutcome
  | exited (printed : List String)
  | crashed (e : PyExc)
deriving DecidableEq

/-- The diagnostic line printed by the three except clauses; both files
have textually identical handlers. -/
def excLine : PyExc → String
  | PyExc.readTimeout => "Превышено время ожидания..."
  | PyExc.connectionError m => m ++ " Ошибка соединения"
  | PyExc.other m => m ++ " ERROR_2"

namespace Seller

/-- The environment values main of seller.py reads before its try block. -/
structure Creds where
  seller_token : String
  client_id : String
deriving DecidableEq

/-- main of seller.py: the env.str reads run before the try block; all of
get_offer_ids, download_stock and the two upload loops run inside the try
with the three handlers. -/
def mainRun (envRes : Except PyExc Creds)
    (body : Creds → Except PyExc Unit) : MainOutcome :=
  match envRes with
  | Except.error e => MainOutcome.crashed e
  | Except.ok c =>
    match body c with
    | Except.ok _ => MainOutcome.exited []
    | Except.error e => MainOutcome.exited [excLine e]

end Seller

namespace Market

/-- The environment values main of market.py reads before its try block. -/
structure Creds where
  market_token : String
  campaign_fbs_id : String
  campaign_dbs_id : String
  warehouse_fbs_id : String
  warehouse_dbs_id : String
deriving DecidableEq

/-- main of market.py: the env.str reads and the watch_remnants =
download_stock() call run before the try block; only the FBS and DBS
branches run inside the try with the three handlers. -/
def mainRun (envRes : Except PyExc Creds)
    (downloadRes : Except PyExc (List InventoryRecord))
    (body : Creds → List InventoryRecord → Except PyExc Unit) : MainOutcome :=
  match envRes with
  | Except.error e => MainOutcome.crashed e
  | Except.ok c =>
    match downloadRes with
    | Except.error e => MainOutcome.crashed e
    | Except.ok wr =>
      match body c wr with
      | Except.ok _ => MainOutcome.exited []
      | Except.error e => MainOutcome.exited [excLine e]

end Market

/-- C5 counterexample: in market.py the inventory download runs before the
try block, so an exception raised by the download escapes main instead of
being caught and printed. -/
theorem claim_C5_counterexample :
    Market.mainRun (Except.ok ⟨"t", "f", "d", "wf", "wd"⟩)
      (Except.error (PyExc.other "boom")) (fun _ _ => Except.ok ())
      = MainOutcome.crashed (PyExc.other "boom") := rfl

/-- C5 (amended): every exception raised inside the try block of either
main is caught, printed as one human-readable diagnostic line, and main
returns normally (exit code 0); in seller.py the try block includes the
inventory download, but in market.py the download (and in both files the
environment reads) run before the try, and an exception raised there
escapes main. -/
theorem claim_C5_exception_handling (cS : Seller.Creds) (cM : Market.Creds)
    (wr : List InventoryRecord)
    (bodyS : Seller.Creds → Except PyExc Unit)
    (bodyM : Market.Creds → List InventoryRecord → Except PyExc Unit)
    (e : PyExc) :
    Seller.mainRun (Except.ok cS) bodyS
      = MainOutcome.exited
          (match bodyS cS with
            | Except.ok _ => []
            | Except.error e2 => [excLine e2]) ∧
    Market.mainRun (Except.ok cM) (Except.ok wr) bodyM
      = MainOutcome.exited
          (match bodyM cM wr with
            | Except.ok _ => []
            | Except.error e2 => [excLine e2]) ∧
    Market.mainRun (Except.ok cM) (Except.error e) bodyM
      = MainOutcome.crashed e := by
  refine ⟨?_, ?_, rfl⟩
  · show (match bodyS cS with
        | Except.ok _ => MainOutcome.exited []
        | Except.error e2 => MainOutcome.exited [excLine e2])
      = MainOutcome.exited (match bodyS cS with
        | Except.ok _ => []
        | Except.error e2 => [excLine e2])
    cases bodyS cS <;> rfl
  · show (match bodyM cM wr with
        | Except.ok _ => MainOutcome.exited []
        | Except.error e2 => MainOutcome.exited [excLine e2])
      = MainOutcome.exited (match bodyM cM wr with
        | Except.ok _ => []
        | Except.error e2 => [excLine e2])
    cases bodyM cM wr <;> rfl
